import Mathlib

/-!
# makeIdxFastq: the index read of a compressed FASTQ as a FASTQ of its own

A shallow embedding of `src/makeIdxFastq.cpp`.  The program reads the records
of a gzip-compressed FASTQ with klib's `kseq`, and for each record writes a
four-line record whose sequence is cut out of the comment of the header line.

What the embedding takes as given (none of it is in `makeIdxFastq.cpp`):

* zlib and `kseq.h`: a handle of type `gzFile` is identified with the records
  that successive calls of `kseq_read` deliver from it before the first
  negative return value; the null handle delivers none;
* the C++ standard library: `std::string(const char*)` and
  `operator<<(const char*)` read a buffer up to its first NUL byte,
  `std::string::substr(pos, n)` throws `std::out_of_range` when `pos` exceeds
  the size and otherwise returns the `min(n, size - pos)` bytes from `pos` on,
  `std::endl` writes a newline and flushes.
-/

namespace MakeIdxFastq

/-! ## Data model -/

/-- The `kstring_t` of `kseq.h` as far as `main` reads it: `s` holds the bytes
of the field, and the count `l` is their number.  In memory a NUL byte follows
them. -/
structure kstring_t where
  s : List Char
deriving DecidableEq, Repr

/-- The field `l` of a `kstring_t`: the number of bytes of the field. -/
def kstring_t.l (k : kstring_t) : Nat := k.s.length

/-- The `kseq_t` of `kseq.h`: one parsed record. -/
structure kseq_t where
  name : kstring_t
  comment : kstring_t
  seq : kstring_t
  qual : kstring_t
deriving DecidableEq, Repr

/-- A `gzFile` as `gzopen` returns it.  `none` is the null handle of a failed
open; `some records` is an open handle, given by the records `kseq_read` will
deliver from it, in order, before its first negative return value. -/
abbrev gzFile := Option (List kseq_t)

/-- Modelled from the spec: `kseq_read` is declared in `kseq.h`, which is not
among the sources.  The parser "produces a lazy, finite, non-restartable
sequence of records" and "malformed input yields no further records"; on the
null handle `gzread` fails at once, so no record is delivered. -/
def kseq_stream : gzFile → List kseq_t
  | none => []
  | some records => records

/-- How the program's run ends. -/
inductive Exit where
  /-- A `return code;` of `main`. -/
  | returned (code : Int)
  /-- `std::out_of_range` left `main` uncaught: `std::terminate` aborts the
  process. -/
  | out_of_range
  /-- The program read `argv[1]` with `argc == 0`, outside the argument
  vector. -/
  | undefined
deriving DecidableEq, Repr

/-- The exit status the parent process sees (the low eight bits of the value
`main` returned); there is none when the process was aborted. -/
def exit_status : Exit → Option Nat
  | Exit.returned code => some (code % 256).toNat
  | Exit.out_of_range => none
  | Exit.undefined => none

/-- What the run has done to the outside so far. -/
structure State where
  /-- Bytes written to standard output (`std::cout`). -/
  out : List Char
  /-- Bytes written to standard error by the program text itself. -/
  err : List Char
  /-- Paths handed to `gzopen`. -/
  opened : List (List Char)
  /-- Number of calls of `kseq_read`. -/
  reads : Nat
deriving DecidableEq, Repr

/-! ## Library operations -/

/-- The newline `std::endl` writes. -/
def endl : Char := Char.ofNat 10

/-- The bytes of a buffer read as a C string: those before the first NUL. -/
def c_str (s : List Char) : List Char :=
  s.takeWhile (fun c => c != Char.ofNat 0)

/-- `std::string::substr(pos, len)`: `none` stands for `std::out_of_range`. -/
def substr (str : List Char) (pos len : Nat) : Option (List Char) :=
  if pos > str.length then none
  else some ((str.drop pos).take (min len (str.length - pos)))

/-! ## The program -/

/-- The `while` loop of `main` (source lines 35-49) followed by the lines
after it (51-54), over the records still to be delivered. -/
def read_loop (dummy_qual : List Char) : List kseq_t → State → Exit × State
  | [], st =>
    -- kseq_read(seq) < 0: leave the loop, kseq_destroy, gzclose, return 0
    (Exit.returned 0, { st with reads := st.reads + 1 })
  | seq :: rest, st =>
    let st := { st with reads := st.reads + 1 }
    if seq.comment.l = 0 then
      (Exit.returned (-1),
        { st with err := st.err ++ "index sequence not found ".toList ++ [endl] })
    else
      let index_str := c_str seq.comment.s
      match substr index_str 6 13 with
      | none => (Exit.out_of_range, st)
      | some idx =>
        read_loop dummy_qual rest
          { st with out := st.out
              ++ "@".toList ++ c_str seq.name.s ++ " ".toList ++ index_str ++ [endl]
              ++ idx ++ [endl]
              ++ "+".toList ++ [endl]
              ++ dummy_qual ++ [endl] }

/-- The function `main`.  `argv` is the argument vector (`argc` is its length)
and `gzopen` is what opening a path yields. -/
def main (argv : List (List Char)) (gzopen : List Char → gzFile) : Exit × State :=
  let argc := argv.length
  let st : State := { out := [], err := [], opened := [], reads := 0 }
  if argc = 1 then
    (Exit.returned 1,
      { st with err := "Usage: ".toList ++ argv.headD [] ++ " <in.fastq.gz> ".toList ++ [endl] })
  else
    match argv[1]? with
    | none => (Exit.undefined, st)
    | some path =>
      let fp := gzopen path
      let st := { st with opened := st.opened ++ [path] }
      let dummy_qual := List.replicate 8 'G'
      read_loop dummy_qual (kseq_stream fp) st

/-! ## Vocabulary of the specification -/

/-- Bytes `[lo, hi)` of a string, counted from 0. -/
def byte_range (str : List Char) (lo hi : Nat) : List Char :=
  (str.take hi).drop lo

/-- The text of the comment of a record, as the program copies it into
`index_str`: the comment field read as a C string. -/
def comment_text (seq : kseq_t) : List Char := c_str seq.comment.s

/-- The four lines of an output record, each ended by a newline. -/
def four_lines (l1 l2 l3 l4 : List Char) : List Char :=
  l1 ++ [endl] ++ (l2 ++ [endl]) ++ (l3 ++ [endl]) ++ (l4 ++ [endl])

/-- The output record of the specification for one input record: header line,
index line (bytes `[6, 19)` of the comment, fewer when the comment ends
earlier), separator line, placeholder quality line. -/
def output_record (seq : kseq_t) : List Char :=
  four_lines ("@".toList ++ c_str seq.name.s ++ " ".toList ++ comment_text seq)
    (byte_range (comment_text seq) 6 19) "+".toList "GGGGGGGG".toList

/-- The loop writes a record for `seq`: the comment field is not empty and its
text reaches offset 6. -/
def emits (seq : kseq_t) : Prop :=
  seq.comment.l ≠ 0 ∧ 6 ≤ (comment_text seq).length

instance (seq : kseq_t) : Decidable (emits seq) := by
  unfold emits
  infer_instance

/-- The records the parser delivers from the file named by `argv[1]`. -/
def input_records (argv : List (List Char)) (gzopen : List Char → gzFile) : List kseq_t :=
  match argv[1]? with
  | some path => kseq_stream (gzopen path)
  | none => []

/-- A record with the given name and comment, for the examples. -/
def sample (name comment : String) : kseq_t :=
  { name := ⟨name.toList⟩, comment := ⟨comment.toList⟩,
    seq := ⟨"ACGTACGT".toList⟩, qual := ⟨"IIIIIIII".toList⟩ }

/-! ## Lemmas on the library operations -/

theorem substr_eq_byte_range (str : List Char) (pos len : Nat) (h : pos ≤ str.length) :
    substr str pos len = some (byte_range str pos (pos + len)) := by
  have hn : ¬ pos > str.length := by omega
  simp only [substr, hn, if_false, byte_range]
  rw [List.drop_take]
  simp [List.take_eq_take]

theorem substr_eq_none (str : List Char) (pos len : Nat) (h : str.length < pos) :
    substr str pos len = none := by
  simp [substr, h]

theorem byte_range_length (str : List Char) (lo hi : Nat) :
    (byte_range str lo hi).length = min hi str.length - lo := by
  simp [byte_range]

theorem byte_range_min (str : List Char) (lo hi : Nat) :
    byte_range str lo (min str.length hi) = byte_range str lo hi := by
  simp only [byte_range]
  congr 1
  rw [List.take_eq_take]
  omega

theorem c_str_length_le (s : List Char) : (c_str s).length ≤ s.length := by
  unfold c_str
  exact (List.takeWhile_sublist _).length_le

theorem c_str_of_nul_free (s : List Char) (h : ∀ c ∈ s, c ≠ Char.ofNat 0) : c_str s = s := by
  unfold c_str
  rw [List.takeWhile_eq_self_iff]
  intro c hc
  simpa using h c hc

theorem comment_l_ne_zero (seq : kseq_t) (h : 0 < (comment_text seq).length) :
    seq.comment.l ≠ 0 := by
  have := c_str_length_le seq.comment.s
  unfold comment_text at h
  unfold kstring_t.l
  omega

/-! ## Lemmas on the loop -/

theorem read_loop_nil (q : List Char) (st : State) :
    read_loop q [] st = (Exit.returned 0, { st with reads := st.reads + 1 }) := by
  simp [read_loop]

theorem read_loop_missing (q : List Char) (seq : kseq_t) (rest : List kseq_t) (st : State)
    (h : seq.comment.l = 0) :
    read_loop q (seq :: rest) st = (Exit.returned (-1),
      { st with reads := st.reads + 1,
                err := st.err ++ "index sequence not found ".toList ++ [endl] }) := by
  simp [read_loop, h]

theorem read_loop_short (q : List Char) (seq : kseq_t) (rest : List kseq_t) (st : State)
    (h : seq.comment.l ≠ 0) (hlen : (comment_text seq).length < 6) :
    read_loop q (seq :: rest) st = (Exit.out_of_range, { st with reads := st.reads + 1 }) := by
  have hs : substr (c_str seq.comment.s) 6 13 = none := substr_eq_none _ _ _ hlen
  simp [read_loop, h, hs]

theorem read_loop_emit (seq : kseq_t) (rest : List kseq_t) (st : State) (h : emits seq) :
    read_loop (List.replicate 8 'G') (seq :: rest) st
      = read_loop (List.replicate 8 'G') rest
          { st with reads := st.reads + 1, out := st.out ++ output_record seq } := by
  have hs : substr (c_str seq.comment.s) 6 13 = some (byte_range (c_str seq.comment.s) 6 19) :=
    substr_eq_byte_range _ 6 13 h.2
  have hq : List.replicate 8 'G' = "GGGGGGGG".toList := by decide
  simp [read_loop, h.1, hs, output_record, four_lines, comment_text, hq, List.append_assoc]

theorem read_loop_append (pre rest : List kseq_t) (st : State) (h : ∀ seq ∈ pre, emits seq) :
    read_loop (List.replicate 8 'G') (pre ++ rest) st
      = read_loop (List.replicate 8 'G') rest
          { st with reads := st.reads + pre.length,
                    out := st.out ++ (pre.map output_record).flatten } := by
  induction pre generalizing st with
  | nil => simp
  | cons seq pre ih =>
    have h1 : emits seq := h seq (List.mem_cons_self _ _)
    have h2 : ∀ r ∈ pre, emits r := fun r hr => h r (List.mem_cons_of_mem _ hr)
    rw [List.cons_append, read_loop_emit seq (pre ++ rest) st h1, ih _ h2]
    simp [List.append_assoc, Nat.add_assoc, Nat.add_comm 1]

theorem read_loop_out (records : List kseq_t) (st : State) :
    ∃ k, (read_loop (List.replicate 8 'G') records st).2.out
          = st.out ++ ((records.take k).map output_record).flatten
        ∧ ∀ seq ∈ records.take k, emits seq := by
  induction records generalizing st with
  | nil => exact ⟨0, by simp [read_loop]⟩
  | cons seq rest ih =>
    by_cases hl : seq.comment.l = 0
    · exact ⟨0, by simp [read_loop_missing _ seq rest st hl]⟩
    · by_cases hlen : (comment_text seq).length < 6
      · exact ⟨0, by simp [read_loop_short _ seq rest st hl hlen]⟩
      · have he : emits seq := ⟨hl, by omega⟩
        obtain ⟨k, hk, hall⟩ := ih { st with reads := st.reads + 1, out := st.out ++ output_record seq }
        refine ⟨k + 1, ?_, ?_⟩
        · rw [read_loop_emit seq rest st he, hk]
          simp [List.append_assoc]
        · intro r hr
          rw [List.take_succ_cons, List.mem_cons] at hr
          rcases hr with rfl | hr
          · exact he
          · exact hall r hr

theorem read_loop_extends (records : List kseq_t) (st : State) :
    ∃ tail, (read_loop (List.replicate 8 'G') records st).2.out = st.out ++ tail := by
  obtain ⟨k, hk, _⟩ := read_loop_out records st
  exact ⟨_, hk⟩

theorem main_run (prog path : List Char) (rest : List (List Char)) (gzopen : List Char → gzFile) :
    main (prog :: path :: rest) gzopen
      = read_loop (List.replicate 8 'G') (kseq_stream (gzopen path))
          { out := [], err := [], opened := [path], reads := 0 } := by
  simp [main]

theorem emits_of_valid (seq : kseq_t) (h : 19 ≤ (comment_text seq).length) : emits seq :=
  ⟨comment_l_ne_zero seq (by omega), by omega⟩

theorem main_reaches (argv : List (List Char)) (gzopen : List Char → gzFile)
    (prog path : List Char) (rest : List (List Char)) (pre tl : List kseq_t)
    (hargv : argv = prog :: path :: rest) (hopen : gzopen path = some (pre ++ tl))
    (hpre : ∀ r ∈ pre, emits r) :
    main argv gzopen = read_loop (List.replicate 8 'G') tl
      { out := (pre.map output_record).flatten, err := [], opened := [path],
        reads := pre.length } := by
  rw [hargv, main_run, hopen]
  simp only [kseq_stream]
  rw [read_loop_append pre tl _ hpre]
  simp

theorem main_usage (argv : List (List Char)) (gzopen : List Char → gzFile)
    (hargc : argv.length = 1) :
    main argv gzopen = (Exit.returned 1,
      { out := [],
        err := "Usage: ".toList ++ argv.headD [] ++ " <in.fastq.gz> ".toList ++ [endl],
        opened := [], reads := 0 }) := by
  simp [main, hargc]

/-! ## The claims -/

/-- C1, order preservation: when every record of the input has a comment text
of at least 19 bytes, `main` returns 0 (exit status 0) and standard output is
the concatenation, in input order, of the output records of the input records;
with no record at all the output is empty. -/
theorem C1_order_preservation (argv : List (List Char)) (gzopen : List Char → gzFile)
    (prog path : List Char) (rest : List (List Char)) (records : List kseq_t)
    (hargv : argv = prog :: path :: rest) (hopen : gzopen path = some records)
    (hvalid : ∀ seq ∈ records, 19 ≤ (comment_text seq).length) :
    (main argv gzopen).1 = Exit.returned 0
      ∧ exit_status (main argv gzopen).1 = some 0
      ∧ (main argv gzopen).2.out = (records.map output_record).flatten
      ∧ (records = [] → (main argv gzopen).2.out = []) := by
  have hrun : main argv gzopen = (Exit.returned 0,
      { out := (records.map output_record).flatten, err := [], opened := [path],
        reads := records.length + 1 }) := by
    have h := read_loop_append records [] { out := [], err := [], opened := [path], reads := 0 }
      (fun seq hs => emits_of_valid seq (hvalid seq hs))
    rw [hargv, main_run, hopen]
    simp only [kseq_stream]
    rw [List.append_nil] at h
    rw [h, read_loop_nil]
    simp
  rw [hrun]
  refine ⟨rfl, rfl, rfl, ?_⟩
  intro h
  simp [h]

/-- Witness of C1 on a stream of two records. -/
theorem C1_order_preservation_witness :
    (main ["makeIdxFastq".toList, "in.fastq.gz".toList]
        (fun _ => some [sample "r1" "ABCDEF1234567890XYZ", sample "r2" "1:N:0:ACGTACGTAAAAA"])).1
      = Exit.returned 0
    ∧ (main ["makeIdxFastq".toList, "in.fastq.gz".toList]
        (fun _ => some [sample "r1" "ABCDEF1234567890XYZ", sample "r2" "1:N:0:ACGTACGTAAAAA"])).2.out
      = ("@r1 ABCDEF1234567890XYZ\n1234567890XYZ\n+\nGGGGGGGG\n"
          ++ "@r2 1:N:0:ACGTACGTAAAAA\nACGTACGTAAAAA\n+\nGGGGGGGG\n").toList :=
  have h := C1_order_preservation ["makeIdxFastq".toList, "in.fastq.gz".toList]
    (fun _ => some [sample "r1" "ABCDEF1234567890XYZ", sample "r2" "1:N:0:ACGTACGTAAAAA"])
    "makeIdxFastq".toList "in.fastq.gz".toList []
    [sample "r1" "ABCDEF1234567890XYZ", sample "r2" "1:N:0:ACGTACGTAAAAA"]
    rfl rfl (by decide)
  ⟨h.1, h.2.2.1.trans (by decide)⟩

/-- C2, offset and length: for a record the loop reaches whose comment text
is at least 19 bytes long, `substr(6,13)` yields bytes `[6, 19)` of it, 13
bytes, and that is what the run writes as the second line of the record. -/
theorem C2_offset_length (argv : List (List Char)) (gzopen : List Char → gzFile)
    (prog path : List Char) (rest : List (List Char)) (pre post : List kseq_t) (seq : kseq_t)
    (hargv : argv = prog :: path :: rest) (hopen : gzopen path = some (pre ++ seq :: post))
    (hpre : ∀ r ∈ pre, emits r) (hlen : 19 ≤ (comment_text seq).length) :
    substr (comment_text seq) 6 13 = some (byte_range (comment_text seq) 6 19)
      ∧ (byte_range (comment_text seq) 6 19).length = 13
      ∧ ∃ tail, (main argv gzopen).2.out
          = (pre.map output_record).flatten
            ++ ("@".toList ++ c_str seq.name.s ++ " ".toList ++ comment_text seq ++ [endl])
            ++ (byte_range (comment_text seq) 6 19 ++ [endl]) ++ tail := by
  refine ⟨substr_eq_byte_range _ 6 13 (by omega), ?_, ?_⟩
  · rw [byte_range_length]
    omega
  · rw [main_reaches argv gzopen prog path rest pre (seq :: post) hargv hopen hpre,
      read_loop_emit seq post _ (emits_of_valid seq hlen)]
    obtain ⟨tail, ht⟩ := read_loop_extends post
      { out := (pre.map output_record).flatten ++ output_record seq, err := [],
        opened := [path], reads := pre.length + 1 }
    refine ⟨("+".toList ++ [endl]) ++ ("GGGGGGGG".toList ++ [endl]) ++ tail, ?_⟩
    rw [ht]
    simp [output_record, four_lines, List.append_assoc]

/-- Witness of C2: the comment `ABCDEF1234567890XYZ` gives the index
`1234567890XYZ`. -/
theorem C2_offset_length_witness :
    substr (comment_text (sample "readA" "ABCDEF1234567890XYZ")) 6 13
      = some "1234567890XYZ".toList :=
  (C2_offset_length ["makeIdxFastq".toList, "in.fastq.gz".toList]
    (fun _ => some [sample "readA" "ABCDEF1234567890XYZ"])
    "makeIdxFastq".toList "in.fastq.gz".toList [] [] []
    (sample "readA" "ABCDEF1234567890XYZ") rfl rfl (by decide) (by decide)).1.trans (by decide)

/-- C3, output record layout: whatever the input, standard output is the
concatenation of one four-line record per record of an initial segment of the
input; the lines are `@`, name, a space and the comment text; the index that
`substr(6,13)` extracted; `+`; and `GGGGGGGG`, whatever the length of the
index. -/
theorem C3_output_record_layout (argv : List (List Char)) (gzopen : List Char → gzFile) :
    ∃ emitted : List kseq_t,
      (∃ k, emitted = (input_records argv gzopen).take k)
      ∧ (main argv gzopen).2.out
          = (emitted.map (fun seq =>
              four_lines ("@".toList ++ c_str seq.name.s ++ " ".toList ++ comment_text seq)
                (byte_range (comment_text seq) 6 19) "+".toList "GGGGGGGG".toList)).flatten
      ∧ (∀ seq ∈ emitted,
          substr (comment_text seq) 6 13 = some (byte_range (comment_text seq) 6 19)) := by
  match argv with
  | [] => exact ⟨[], ⟨0, by simp⟩, by simp [main], by simp⟩
  | [prog] => exact ⟨[], ⟨0, by simp⟩, by simp [main], by simp⟩
  | prog :: path :: rest =>
    obtain ⟨k, hk, hall⟩ := read_loop_out (kseq_stream (gzopen path))
      { out := [], err := [], opened := [path], reads := 0 }
    refine ⟨(kseq_stream (gzopen path)).take k, ⟨k, by simp [input_records]⟩, ?_, ?_⟩
    · rw [main_run, hk]
      rfl
    · intro seq hs
      exact substr_eq_byte_range _ 6 13 (hall seq hs).2

/-- C4, missing-annotation abort: when the records before record `k` all have
a comment text of at least 19 bytes and record `k` has an empty comment field,
`main` returns -1 (exit status 255), and standard output holds the output
records of the records before `k` and nothing else, whatever follows. -/
theorem C4_missing_annotation_abort (argv : List (List Char)) (gzopen : List Char → gzFile)
    (prog path : List Char) (rest : List (List Char)) (pre post : List kseq_t) (seq : kseq_t)
    (hargv : argv = prog :: path :: rest) (hopen : gzopen path = some (pre ++ seq :: post))
    (hpre : ∀ r ∈ pre, 19 ≤ (comment_text r).length) (hmissing : seq.comment.l = 0) :
    (main argv gzopen).1 = Exit.returned (-1)
      ∧ exit_status (main argv gzopen).1 = some 255
      ∧ (main argv gzopen).2.out = (pre.map output_record).flatten := by
  rw [main_reaches argv gzopen prog path rest pre (seq :: post) hargv hopen
      (fun r hr => emits_of_valid r (hpre r hr)),
    read_loop_missing _ seq post _ hmissing]
  exact ⟨rfl, rfl, rfl⟩

/-- Witness of C4: the second of three records has no comment. -/
theorem C4_missing_annotation_abort_witness :
    (main ["makeIdxFastq".toList, "in.fastq.gz".toList]
        (fun _ => some [sample "r1" "ABCDEF1234567890XYZ", sample "r2" "",
          sample "r3" "ABCDEF1234567890XYZ"])).1 = Exit.returned (-1)
    ∧ (main ["makeIdxFastq".toList, "in.fastq.gz".toList]
        (fun _ => some [sample "r1" "ABCDEF1234567890XYZ", sample "r2" "",
          sample "r3" "ABCDEF1234567890XYZ"])).2.out
      = "@r1 ABCDEF1234567890XYZ\n1234567890XYZ\n+\nGGGGGGGG\n".toList :=
  have h := C4_missing_annotation_abort ["makeIdxFastq".toList, "in.fastq.gz".toList]
    (fun _ => some [sample "r1" "ABCDEF1234567890XYZ", sample "r2" "",
      sample "r3" "ABCDEF1234567890XYZ"])
    "makeIdxFastq".toList "in.fastq.gz".toList []
    [sample "r1" "ABCDEF1234567890XYZ"] [sample "r3" "ABCDEF1234567890XYZ"] (sample "r2" "")
    rfl rfl (by decide) (by decide)
  ⟨h.1, h.2.2.trans (by decide)⟩

/-- C5 as stated fails: a single record whose comment is the three bytes
`abc` has a non-empty annotation, yet the run is aborted by `std::out_of_range`
instead of returning 0, and no output record is written. -/
theorem C5_success_postcondition_counterexample :
    (∀ seq ∈ [sample "r1" "abc"], 1 ≤ seq.comment.l)
    ∧ (main ["makeIdxFastq".toList, "in.fastq.gz".toList]
        (fun _ => some [sample "r1" "abc"])).1 = Exit.out_of_range
    ∧ (main ["makeIdxFastq".toList, "in.fastq.gz".toList]
        (fun _ => some [sample "r1" "abc"])).1 ≠ Exit.returned 0
    ∧ (main ["makeIdxFastq".toList, "in.fastq.gz".toList]
        (fun _ => some [sample "r1" "abc"])).2.out = [] := by
  decide

/-- C5 amended, success postcondition: when every record of the input has a
non-empty comment field whose text is at least 6 bytes long, every input record
produces exactly one output record, in input order, and `main` returns 0 once
the source is exhausted. -/
theorem C5_success_postcondition (argv : List (List Char)) (gzopen : List Char → gzFile)
    (prog path : List Char) (rest : List (List Char)) (records : List kseq_t)
    (hargv : argv = prog :: path :: rest) (hopen : gzopen path = some records)
    (hlen : ∀ seq ∈ records, seq.comment.l ≠ 0 ∧ 6 ≤ (comment_text seq).length) :
    (main argv gzopen).1 = Exit.returned 0
      ∧ exit_status (main argv gzopen).1 = some 0
      ∧ (main argv gzopen).2.out = (records.map output_record).flatten
      ∧ (main argv gzopen).2.reads = records.length + 1 := by
  have hopen2 : gzopen path = some (records ++ []) := by rw [List.append_nil]; exact hopen
  rw [main_reaches argv gzopen prog path rest records [] hargv hopen2 hlen, read_loop_nil]
  exact ⟨rfl, rfl, rfl, rfl⟩

/-- Witness of the amended C5: comments of 8 and 6 bytes. -/
theorem C5_success_postcondition_witness :
    (main ["makeIdxFastq".toList, "in.fastq.gz".toList]
        (fun _ => some [sample "r1" "abcdefgh", sample "r2" "abcdef"])).1 = Exit.returned 0
    ∧ (main ["makeIdxFastq".toList, "in.fastq.gz".toList]
        (fun _ => some [sample "r1" "abcdefgh", sample "r2" "abcdef"])).2.out
      = "@r1 abcdefgh\ngh\n+\nGGGGGGGG\n@r2 abcdef\n\n+\nGGGGGGGG\n".toList :=
  have h := C5_success_postcondition ["makeIdxFastq".toList, "in.fastq.gz".toList]
    (fun _ => some [sample "r1" "abcdefgh", sample "r2" "abcdef"])
    "makeIdxFastq".toList "in.fastq.gz".toList []
    [sample "r1" "abcdefgh", sample "r2" "abcdef"] rfl rfl (by decide)
  ⟨h.1, h.2.2.1.trans (by decide)⟩

/-- C6 at a path that cannot be opened: `gzopen` yields the null handle, the
first `kseq_read` is negative, and `main` returns 0 with nothing written. -/
theorem C6_open_failure_returns_zero :
    main ["makeIdxFastq".toList, "missing.fastq.gz".toList] (fun _ => none)
      = (Exit.returned 0,
          { out := [], err := [], opened := ["missing.fastq.gz".toList], reads := 1 })
    ∧ exit_status (main ["makeIdxFastq".toList, "missing.fastq.gz".toList] (fun _ => none)).1
      = some 0 := by
  decide

/-- C7, usage error: with the program name as the only argument `main` returns
1, writes nothing to standard output, opens nothing and reads no record,
whatever opening a path would have yielded. -/
theorem C7_usage_error (argv : List (List Char)) (gzopen : List Char → gzFile)
    (hargc : argv.length = 1) :
    (main argv gzopen).1 = Exit.returned 1
      ∧ exit_status (main argv gzopen).1 = some 1
      ∧ (main argv gzopen).2.out = []
      ∧ (main argv gzopen).2.opened = []
      ∧ (main argv gzopen).2.reads = 0
      ∧ ∀ gzopen2 : List Char → gzFile, main argv gzopen2 = main argv gzopen := by
  rw [main_usage argv gzopen hargc]
  exact ⟨rfl, rfl, rfl, rfl, rfl, fun gzopen2 => main_usage argv gzopen2 hargc⟩

/-- Witness of C7. -/
theorem C7_usage_error_witness :
    (main ["makeIdxFastq".toList] (fun _ => some [sample "r1" "ABCDEF1234567890XYZ"])).1
      = Exit.returned 1
    ∧ (main ["makeIdxFastq".toList] (fun _ => some [sample "r1" "ABCDEF1234567890XYZ"])).2.out
      = [] :=
  have h := C7_usage_error ["makeIdxFastq".toList]
    (fun _ => some [sample "r1" "ABCDEF1234567890XYZ"]) (by decide)
  ⟨h.1, h.2.2.1⟩

/-- C8 as stated fails: the comment `ABCDEF1234` is 10 bytes long, shorter than
19, and the extraction yields the shorter index `1234`; the record is written
and `main` returns 0. -/
theorem C8_bounds_checked_extraction_counterexample :
    (sample "r1" "ABCDEF1234").comment.l = 10
    ∧ substr (comment_text (sample "r1" "ABCDEF1234")) 6 13 = some "1234".toList
    ∧ main ["makeIdxFastq".toList, "in.fastq.gz".toList]
        (fun _ => some [sample "r1" "ABCDEF1234"])
      = (Exit.returned 0,
          { out := "@r1 ABCDEF1234\n1234\n+\nGGGGGGGG\n".toList, err := [],
            opened := ["in.fastq.gz".toList], reads := 2 }) := by
  decide

/-- C8 amended, extraction below the offset: for a record the loop reaches
whose non-empty comment field has a text shorter than 6 bytes, `substr(6,13)`
throws `std::out_of_range`: no index is produced, the run is aborted and
standard output holds the records written before, none for this record. -/
theorem C8_bounds_checked_extraction (argv : List (List Char)) (gzopen : List Char → gzFile)
    (prog path : List Char) (rest : List (List Char)) (pre post : List kseq_t) (seq : kseq_t)
    (hargv : argv = prog :: path :: rest) (hopen : gzopen path = some (pre ++ seq :: post))
    (hpre : ∀ r ∈ pre, emits r) (hne : seq.comment.l ≠ 0)
    (hshort : (comment_text seq).length < 6) :
    substr (comment_text seq) 6 13 = none
      ∧ (main argv gzopen).1 = Exit.out_of_range
      ∧ exit_status (main argv gzopen).1 ≠ some 0
      ∧ (main argv gzopen).2.out = (pre.map output_record).flatten := by
  rw [main_reaches argv gzopen prog path rest pre (seq :: post) hargv hopen hpre,
    read_loop_short _ seq post _ hne hshort]
  exact ⟨substr_eq_none _ 6 13 hshort, rfl, by simp [exit_status], rfl⟩

/-- Witness of the amended C8: the second record has the comment `abc`. -/
theorem C8_bounds_checked_extraction_witness :
    substr (comment_text (sample "r2" "abc")) 6 13 = none
    ∧ (main ["makeIdxFastq".toList, "in.fastq.gz".toList]
        (fun _ => some [sample "r1" "ABCDEF1234567890XYZ", sample "r2" "abc",
          sample "r3" "ABCDEF1234567890XYZ"])).1 = Exit.out_of_range
    ∧ (main ["makeIdxFastq".toList, "in.fastq.gz".toList]
        (fun _ => some [sample "r1" "ABCDEF1234567890XYZ", sample "r2" "abc",
          sample "r3" "ABCDEF1234567890XYZ"])).2.out
      = "@r1 ABCDEF1234567890XYZ\n1234567890XYZ\n+\nGGGGGGGG\n".toList :=
  have h := C8_bounds_checked_extraction ["makeIdxFastq".toList, "in.fastq.gz".toList]
    (fun _ => some [sample "r1" "ABCDEF1234567890XYZ", sample "r2" "abc",
      sample "r3" "ABCDEF1234567890XYZ"])
    "makeIdxFastq".toList "in.fastq.gz".toList []
    [sample "r1" "ABCDEF1234567890XYZ"] [sample "r3" "ABCDEF1234567890XYZ"] (sample "r2" "abc")
    rfl rfl (by decide) (by decide) (by decide)
  ⟨h.1, h.2.1, h.2.2.2.trans (by decide)⟩

/-- C9 at the comment `ABCDEF1234567890XYZ`: the index line written is the 13
bytes `1234567890XYZ` and the quality line is the 8 bytes `GGGGGGGG`. -/
theorem C9_quality_shorter_than_index :
    (main ["makeIdxFastq".toList, "in.fastq.gz".toList]
        (fun _ => some [sample "readA" "ABCDEF1234567890XYZ"])).2.out
      = four_lines "@readA ABCDEF1234567890XYZ".toList "1234567890XYZ".toList
          "+".toList "GGGGGGGG".toList
    ∧ "1234567890XYZ".toList.length = 13
    ∧ "GGGGGGGG".toList.length = 8 := by
  decide

/-- C10, total characterisation of the extraction: for a record the loop
reaches whose comment field is not empty, with `n` the length of its text: if
`n < 6`, `substr(6,13)` throws `std::out_of_range`, the run is aborted and
standard output holds the earlier records only; if `6 ≤ n`, the index is bytes
`[6, min n 19)` of the text, of length `min 13 (n - 6)`, and the record is
written with that index. -/
theorem C10_extraction_characterisation (argv : List (List Char))
    (gzopen : List Char → gzFile)
    (prog path : List Char) (rest : List (List Char)) (pre post : List kseq_t) (seq : kseq_t)
    (hargv : argv = prog :: path :: rest) (hopen : gzopen path = some (pre ++ seq :: post))
    (hpre : ∀ r ∈ pre, emits r) (hne : seq.comment.l ≠ 0) :
    ((comment_text seq).length < 6 →
        substr (comment_text seq) 6 13 = none
        ∧ (main argv gzopen).1 = Exit.out_of_range
        ∧ (main argv gzopen).2.out = (pre.map output_record).flatten)
    ∧ (6 ≤ (comment_text seq).length →
        substr (comment_text seq) 6 13
          = some (byte_range (comment_text seq) 6 (min (comment_text seq).length 19))
        ∧ (byte_range (comment_text seq) 6 (min (comment_text seq).length 19)).length
          = min 13 ((comment_text seq).length - 6)
        ∧ ∃ tail, (main argv gzopen).2.out
            = (pre.map output_record).flatten
              ++ four_lines
                  ("@".toList ++ c_str seq.name.s ++ " ".toList ++ comment_text seq)
                  (byte_range (comment_text seq) 6 (min (comment_text seq).length 19))
                  "+".toList "GGGGGGGG".toList
              ++ tail) := by
  have hmain := main_reaches argv gzopen prog path rest pre (seq :: post) hargv hopen hpre
  constructor
  · intro hshort
    rw [hmain, read_loop_short _ seq post _ hne hshort]
    exact ⟨substr_eq_none _ 6 13 hshort, rfl, rfl⟩
  · intro hlong
    rw [byte_range_min]
    refine ⟨substr_eq_byte_range _ 6 13 hlong, ?_, ?_⟩
    · rw [byte_range_length]
      omega
    · rw [hmain, read_loop_emit seq post _ ⟨hne, hlong⟩]
      obtain ⟨tail, ht⟩ := read_loop_extends post
        { out := (pre.map output_record).flatten ++ output_record seq, err := [],
          opened := [path], reads := pre.length + 1 }
      exact ⟨tail, ht⟩

/-- Witness of C10: after one full record, a comment of 8 bytes gives the
2-byte index `gh` and the record is written; a comment of 3 bytes aborts. -/
theorem C10_extraction_characterisation_witness :
    (substr (comment_text (sample "r2" "abcdefgh")) 6 13 = some "gh".toList
      ∧ ∃ tail, (main ["makeIdxFastq".toList, "in.fastq.gz".toList]
          (fun _ => some [sample "r1" "ABCDEF1234567890XYZ", sample "r2" "abcdefgh",
            sample "r3" "abc"])).2.out
        = ("@r1 ABCDEF1234567890XYZ\n1234567890XYZ\n+\nGGGGGGGG\n"
            ++ "@r2 abcdefgh\ngh\n+\nGGGGGGGG\n").toList ++ tail)
    ∧ (main ["makeIdxFastq".toList, "in.fastq.gz".toList]
          (fun _ => some [sample "r1" "abcdefgh", sample "r2" "abc"])).1 = Exit.out_of_range :=
  have h := (C10_extraction_characterisation ["makeIdxFastq".toList, "in.fastq.gz".toList]
    (fun _ => some [sample "r1" "ABCDEF1234567890XYZ", sample "r2" "abcdefgh",
      sample "r3" "abc"])
    "makeIdxFastq".toList "in.fastq.gz".toList []
    [sample "r1" "ABCDEF1234567890XYZ"] [sample "r3" "abc"] (sample "r2" "abcdefgh")
    rfl rfl (by decide) (by decide)).2 (by decide)
  have h2 := (C10_extraction_characterisation ["makeIdxFastq".toList, "in.fastq.gz".toList]
    (fun _ => some [sample "r1" "abcdefgh", sample "r2" "abc"])
    "makeIdxFastq".toList "in.fastq.gz".toList []
    [sample "r1" "abcdefgh"] [] (sample "r2" "abc")
    rfl rfl (by decide) (by decide)).1 (by decide)
  ⟨⟨h.1.trans (by decide), h.2.2.imp (fun tail ht => ht.trans (congrArg (fun l => l ++ tail) (by decide)))⟩, h2.2.1⟩

end MakeIdxFastq
